import Mathlib

/-!
Verification of the hamsterx reactive core (`signal.js`): signals, effects,
dependency tracking, write propagation, and disposal.

The embedding is a shallow, instrumented big-step interpreter over an explicit
program state.  Signals and effects live in indexed tables (a JS closure pair
becomes an index into the table); the module-level mutable variables
`currentEffect` and `effectStack` become fields of the state.  Effect bodies
are embedded as a small command tree (`Body`) in continuation style: a `read`
carries a Lean function consuming the value read, so a body can branch on or
compute with the values it reads, exactly as an arbitrary JS callback can.

Faithfulness notes, matching `signal.js` line by line:
* `Object.is` is SameValue equality: `JSVal` gives NaN and negative zero their
  own constructors, so structural equality on `JSVal` is exactly `Object.is`
  (NaN equals NaN, and -0 differs from +0).  Strict equality `===` is the
  separate `jsStrictEq`.
* A JS `Set` preserves insertion order and ignores re-insertion of an existing
  member; subscriber sets are therefore lists maintained by `addUnique`.
* The unsubscribe closure registered by the getter,
  `() => subscribers.delete(currentEffect)`, closes over the signal's
  subscriber set and over the *mutable module variable* `currentEffect` — not
  over the effect that was current when the closure was created.  Such a
  closure is therefore fully described by the signal index it captures, and
  running it deletes whatever effect is current *at cleanup time*.  The
  cleanup set holds a fresh closure per read (fresh function identities never
  collide in a JS `Set`), hence a list of signal indices, appended on every
  read.
* Execution is fuel-indexed: `exec` returns `none` when fuel runs out, and
  `some (st, thrown)` otherwise, where `thrown` records an exception
  propagating out (the `try`/`finally` in the effect runner restores the
  tracking context either way, and a throw aborts the remaining subscriber
  replay of a write, as an uncaught JS exception would).
* `runs` and `log` are ghost instrumentation: `runs` appends the effect index
  each time an effect body actually starts executing (the invocation counter
  of the spec's tests), and `log` is written by the explicit `record` command.
-/

namespace Hamsterx

/-- JS values as far as the reactive core observes them: numbers (with NaN and
negative zero distinguished, so that structural equality is `Object.is`),
booleans, strings, `null` and `undefined`. -/
inductive JSVal where
  | num (n : Int)
  | negZero
  | nan
  | boolean (b : Bool)
  | strV (s : String)
  | nullV
  | undef
deriving DecidableEq

/-- SameValue equality, the semantics of `Object.is`: structural equality of
`JSVal` (NaN is `Object.is`-equal to NaN; `-0` is not `Object.is`-equal to `+0`). -/
def jsObjectIs (a b : JSVal) : Bool := decide (a = b)

/-- Strict equality `===`: like `Object.is` except NaN is never equal to
anything (itself included) and `-0 === +0`. -/
def jsStrictEq (a b : JSVal) : Bool :=
  match a, b with
  | .nan, _ => false
  | _, .nan => false
  | .negZero, .num 0 => true
  | .num 0, .negZero => true
  | a, b => decide (a = b)

/-- Effect bodies, in continuation style.  `read s k` reads signal `s` and
continues as `k v` where `v` is the value read; `write s v k` runs the setter
of `s` with `v` and then continues as `k`; `record v k` appends `v` to the
ghost log; `newEffect b k` is a nested `createEffect(b)` whose continuation
receives the fresh effect's index (its dispose handle); `disposeB e k` calls
the dispose function of effect `e`; `throwB` raises an exception. -/
inductive Body where
  | done
  | throwB
  | read (s : Nat) (k : JSVal → Body)
  | write (s : Nat) (v : JSVal) (k : Body)
  | record (v : JSVal) (k : Body)
  | newEffect (b : Body) (k : Nat → Body)
  | disposeB (e : Nat) (k : Body)

/-- One signal closure: the captured `value` and `subscribers` set
(insertion-ordered, duplicate-free list of effect indices). -/
structure SignalCell where
  value : JSVal
  subscribers : List Nat

/-- One effect closure: the captured body `fn`, the `isDisposed` flag, and the
`cleanup` set of unsubscribe closures, each represented by the signal index it
captured (see module comment). -/
structure EffectCell where
  body : Body
  isDisposed : Bool
  cleanup : List Nat

/-- Whole-program state: the signal and effect tables, the module-level
tracking variables `currentEffect` and `effectStack` (top of stack = head of
list), and the ghost `log` and `runs` instrumentation. -/
structure St where
  signals : List SignalCell
  effects : List EffectCell
  currentEffect : Option Nat
  effectStack : List Nat
  log : List JSVal
  runs : List Nat

/-- The empty initial state. -/
def st0 : St := ⟨[], [], none, [], [], []⟩

/-- Placeholder cell for out-of-range signal lookups (never reached in the
scenarios considered; JS would throw on a dangling closure instead). -/
def defaultSignal : SignalCell := ⟨.undef, []⟩

/-- JS `Set.add` on an insertion-ordered set: append unless already present
(re-adding an existing member keeps its original position). -/
def addUnique (l : List Nat) (e : Nat) : List Nat :=
  if e ∈ l then l else l ++ [e]

/-- The getter of signal `s`: when `currentEffect` is non-null it adds the
current effect to the subscriber set and appends one fresh unsubscribe closure
(recorded as the signal index `s`) to that effect's cleanup set, then returns
the stored value; with no current effect it just returns the value. -/
def getterOp (s : Nat) (st : St) : JSVal × St :=
  let cell := st.signals.getD s defaultSignal
  match st.currentEffect with
  | none => (cell.value, st)
  | some e =>
    let st1 : St :=
      { st with signals :=
          st.signals.set s { cell with subscribers := addUnique cell.subscribers e } }
    match st1.effects.get? e with
    | none => (cell.value, st1)
    | some ec =>
      (cell.value,
        { st1 with effects := st1.effects.set e { ec with cleanup := ec.cleanup ++ [s] } })

/-- The dispose function of effect `e`: set `isDisposed`, run every cleanup
closure, then clear the cleanup set.  Each closure executes
`subscribers.delete(currentEffect)` on its captured signal, using the value of
the module variable `currentEffect` at cleanup time (this is what the source
closure captures — see the module comment). -/
def disposeOp (e : Nat) (st : St) : St :=
  match st.effects.get? e with
  | none => st
  | some ec =>
    let sigs := ec.cleanup.foldl
      (fun sigs s =>
        match st.currentEffect with
        | none => sigs
        | some ce =>
          let cell := sigs.getD s defaultSignal
          sigs.set s { cell with subscribers := cell.subscribers.erase ce })
      st.signals
    { st with signals := sigs,
              effects := st.effects.set e { ec with isDisposed := true, cleanup := [] } }

/-- Interpreter tasks: run a body, run a setter (`setS`), replay a snapshotted
subscriber list of a write, or invoke an effect's rerun callback (`runE`). -/
inductive Task where
  | runB (b : Body)
  | setS (s : Nat) (v : JSVal)
  | replay (subs : List Nat) (s : Nat)
  | runE (e : Nat)

/-- Fuel-indexed big-step interpreter.  `none` means the fuel ran out;
`some (st, thrown)` gives the final state and whether an exception is
propagating.  Each case transcribes the corresponding source code:
* `setS`: return if `Object.is(value, newValue)`; otherwise store the value,
  snapshot the subscribers, clear the live set, and replay the snapshot.
* `replay`: for each snapshotted subscriber in order, re-add it to the live
  set and invoke it; an exception aborts the remaining replay.
* `runE`: return if disposed; otherwise set `currentEffect`, push onto
  `effectStack`, run the body, and in all cases (`finally`) pop the stack and
  restore `currentEffect` to the new top or null. -/
def exec : Nat → Task → St → Option (St × Bool)
  | 0, _, _ => none
  | _ + 1, .runB .done, st => some (st, false)
  | _ + 1, .runB .throwB, st => some (st, true)
  | f + 1, .runB (.read s k), st =>
    let r := getterOp s st
    exec f (.runB (k r.1)) r.2
  | f + 1, .runB (.write s v k), st =>
    match exec f (.setS s v) st with
    | none => none
    | some (st1, true) => some (st1, true)
    | some (st1, false) => exec f (.runB k) st1
  | f + 1, .runB (.record v k), st =>
    exec f (.runB k) { st with log := st.log ++ [v] }
  | f + 1, .runB (.newEffect b k), st =>
    let id := st.effects.length
    let st1 : St := { st with effects := st.effects ++ [⟨b, false, []⟩] }
    match exec f (.runE id) st1 with
    | none => none
    | some (st2, true) => some (st2, true)
    | some (st2, false) => exec f (.runB (k id)) st2
  | f + 1, .runB (.disposeB e k), st =>
    exec f (.runB k) (disposeOp e st)
  | f + 1, .setS s v, st =>
    let cell := st.signals.getD s defaultSignal
    if jsObjectIs cell.value v then some (st, false)
    else
      let st1 : St :=
        { st with signals := st.signals.set s { cell with value := v, subscribers := [] } }
      exec f (.replay cell.subscribers s) st1
  | _ + 1, .replay [] _, st => some (st, false)
  | f + 1, .replay (e :: rest) s, st =>
    let cell := st.signals.getD s defaultSignal
    let st1 : St :=
      { st with signals :=
          st.signals.set s { cell with subscribers := addUnique cell.subscribers e } }
    match exec f (.runE e) st1 with
    | none => none
    | some (st2, true) => some (st2, true)
    | some (st2, false) => exec f (.replay rest s) st2
  | f + 1, .runE e, st =>
    match st.effects.get? e with
    | none => some (st, false)
    | some ec =>
      if ec.isDisposed then some (st, false)
      else
        let st1 : St :=
          { st with currentEffect := some e,
                    effectStack := e :: st.effectStack,
                    runs := st.runs ++ [e] }
        match exec f (.runB ec.body) st1 with
        | none => none
        | some (st2, t) =>
          some ({ st2 with effectStack := st2.effectStack.tail,
                           currentEffect := st2.effectStack.tail.head? }, t)

/-- `createSignal(initial)`: allocate a fresh cell with an empty subscriber
set; the returned index stands for the `[getter, setter]` closure pair. -/
def createSignal (init : JSVal) (st : St) : Nat × St :=
  (st.signals.length, { st with signals := st.signals ++ [⟨init, []⟩] })

/-- Index the next `createEffect` call on `st` will allocate (its dispose
handle refers to this index). -/
def newEffectId (st : St) : Nat := st.effects.length

/-- `createEffect(fn)`: allocate the effect cell (not disposed, empty cleanup
set) and run it once immediately; the allocated index `newEffectId st` is the
dispose handle the constructor returns. -/
def createEffect (fuel : Nat) (b : Body) (st : St) : Option (St × Bool) :=
  let st1 : St := { st with effects := st.effects ++ [⟨b, false, []⟩] }
  exec fuel (.runE st.effects.length) st1

/-- Top-level call of a signal's setter. -/
def writeSig (fuel : Nat) (s : Nat) (v : JSVal) (st : St) : Option (St × Bool) :=
  exec fuel (.setS s v) st

/-- Top-level call of a signal's getter. -/
def readSig (s : Nat) (st : St) : JSVal × St := getterOp s st

/-- Observable part of an effect cell from the outside of a run: its body and
its disposed flag (the cleanup set is internal bookkeeping). -/
def effView (ec : EffectCell) : Body × Bool := (ec.body, ec.isDisposed)

/-- Tracking-context invariant: `currentEffect` is the top of `effectStack`
(or null when the stack is empty).  It holds at rest and is maintained by the
interpreter. -/
def TrackInv (st : St) : Prop := st.currentEffect = st.effectStack.head?

/-- Read-only effect bodies of recursion depth at most `n`: bodies that only
read signals and append to the ghost log — no signal writes, no nested effect
creation, no disposal, no exception.  The depth bound makes the fuel needed to
run such a body explicit. -/
inductive ROB : Nat → Body → Prop where
  | done (n : Nat) : ROB n .done
  | read (n s : Nat) (k : JSVal → Body) : (∀ v, ROB n (k v)) → ROB (n + 1) (.read s k)
  | record (n : Nat) (v : JSVal) (k : Body) : ROB n k → ROB (n + 1) (.record v k)

/-- State evolution that leaves the ghost run counter, the tracking context,
and every effect's body and disposed flag unchanged (signal cells, cleanup
sets and the log may change).  Running a read-only body is quiet. -/
def Quiet (st st' : St) : Prop :=
  st'.runs = st.runs ∧ st'.effectStack = st.effectStack ∧
  st'.currentEffect = st.currentEffect ∧
  ∀ e2, (st'.effects.get? e2).map effView = (st.effects.get? e2).map effView

/-- Scenario for C1 (divergent branches): the effect reads the flag signal 0,
then reads signal 1 (A) when the flag is true and signal 2 (B) otherwise. -/
def c1Body : Body :=
  .read 0 (fun v =>
    if v = .boolean true then .read 1 (fun _ => .done) else .read 2 (fun _ => .done))

/-- Scenario state for C1: flag = signal 0 (`true`), A = signal 1 (`10`),
B = signal 2 (`20`). -/
def c1Setup : St :=
  (createSignal (.num 20) (createSignal (.num 10) (createSignal (.boolean true) st0).2).2).2

/-- C1 after `createEffect` (initial run with flag true) and a write flipping
the flag to false (which reruns the effect, now reading B). -/
def c1AfterFlip : Option St :=
  (createEffect 20 c1Body c1Setup).bind fun p =>
    (writeSig 20 0 (.boolean false) p.1).map fun p => p.1

/-- C1 after the subsequent value-changing write to A. -/
def c1Final : Option St :=
  c1AfterFlip.bind fun st => (writeSig 20 1 (.num 11) st).map fun p => p.1

/-- Scenario body for C2/C4-style effects: read signal 0 and stop. -/
def c2Body : Body := .read 0 (fun _ => .done)

/-- Scenario for C2: signal 0 (initial 0), effect 0 reads it once, then its
dispose function is called at top level (`currentEffect` is null there). -/
def c2AfterDispose : Option St :=
  (createEffect 20 c2Body (createSignal (.num 0) st0).2).map fun p => disposeOp 0 p.1

/-- Scenario for C3: signal 0 holds NaN and effect 0 reads and records it. -/
def c3Run : Option St :=
  (createEffect 20 (.read 0 (fun v => .record v .done)) (createSignal .nan st0).2).map
    fun p => p.1

/-- C3 after writing NaN to the NaN-valued signal. -/
def c3Final : Option St := c3Run.bind fun st => (writeSig 20 0 .nan st).map fun p => p.1

/-- Witness state for C4: signal 0 with the already-disposed effect 0 still in
its subscriber set (as the broken cleanup leaves it — see C2). -/
def c4wSt : St := ⟨[⟨.num 0, [0]⟩], [⟨.done, true, []⟩], none, [], [], []⟩

/-- Increment capped at ceiling `c`, the stabilizing update of the spec's
re-entrant-write test: `v < c` steps to `v + 1`, and from `c` on it writes the
identical ceiling value. -/
def capInc (c : Int) (v : JSVal) : JSVal :=
  match v with
  | .num n => .num (min (n + 1) c)
  | _ => .num c

/-- Counterexample body for C5: reads signal 0 and writes the capped increment
back, so the first run retriggers itself once before stabilizing at 1. -/
def c5xBody : Body := .read 0 (fun v => .write 0 (capInc 1 v) .done)

/-- Counterexample setup for C5: one signal with value 0. -/
def c5xSetup : St := (createSignal (.num 0) st0).2

/-- Witness state for C6: one effect with a trivial body, not yet run. -/
def c6wSt : St := ⟨[], [⟨.done, false, []⟩], none, [], [], []⟩

/-- Result state of running effect 0 of `c6wSt`: only the ghost run counter
differs, the tracking context is restored. -/
def c6wOut : St := ⟨[], [⟨.done, false, []⟩], none, [], [], [0]⟩

/-- Scenario body for C7: read signal 0 and record the observed value. -/
def c7Body : Body := .read 0 (fun v => .record v .done)

/-- C7 pipeline: signal with 0, effect recording it, then write(1), write(2),
write(2). -/
def c7Run : Option St :=
  (createEffect 20 c7Body (createSignal (.num 0) st0).2).bind fun p =>
  (writeSig 20 0 (.num 1) p.1).bind fun p =>
  (writeSig 20 0 (.num 2) p.1).bind fun p =>
  (writeSig 20 0 (.num 2) p.1).map fun p => p.1

/-- Witness state for C8: signal 0 with two subscribed read-only effects, in
subscription order 0 then 1. -/
def c8wSt : St :=
  ⟨[⟨.num 0, [0, 1]⟩],
   [⟨.read 0 (fun _ => .done), false, []⟩, ⟨.read 0 (fun _ => .done), false, []⟩],
   none, [], [], []⟩

/-- Effect body of the C9 termination scenario: read signal 0 and write back
the capped increment (ceiling `c`). -/
def c9Body (c : Int) : Body := .read 0 (fun v => .write 0 (capInc c v) .done)

/-- C9 initial state: signal 0 holds `a` and the capped-increment effect is
subscribed to it. -/
def c9St (a c : Int) : St := ⟨[⟨.num a, [0]⟩], [⟨c9Body c, false, []⟩], none, [], [], []⟩

/-- Generalized state shape reached during the C9 write cascade: signal 0
holds `w` with effect 0 subscribed; effect 0 runs the capped-increment body
with some accumulated cleanup list; tracking context and ghost fields vary. -/
def c9Shape (c w : Int) (cl stk : List Nat) (cur : Option Nat) (lg : List JSVal)
    (rs : List Nat) : St :=
  ⟨[⟨.num w, [0]⟩], [⟨c9Body c, false, cl⟩], cur, stk, lg, rs⟩

/-- Witness state for C10: signal 0 with value 7, effect 0 currently running
(it is the current observer). -/
def c10wSt : St := ⟨[⟨.num 7, []⟩], [⟨.done, false, []⟩], some 0, [0], [], []⟩

/-- Result of writing 1 to signal 0 of `c4wSt`: the value is stored and the
disposed subscriber is re-added, but its body never ran (no ghost fields
changed). -/
def c4wStAfter : St := ⟨[⟨.num 1, [0]⟩], [⟨.done, true, []⟩], none, [], [], []⟩

/-- Witness state for C3: a signal whose stored value is NaN. -/
def c3wSt : St := ⟨[⟨.nan, []⟩], [], none, [], [], []⟩

/-- Second witness state for C3: a signal storing 1, with no subscribers. -/
def c3wSt2 : St := ⟨[⟨.num 1, []⟩], [], none, [], [], []⟩

/-- Witness body for C5/C8: a read-only body of depth 1. -/
def roBody1 : Body := .read 0 (fun _ => .done)

theorem getterOp_frame (s : Nat) (st : St) :
    (getterOp s st).2.currentEffect = st.currentEffect ∧
    (getterOp s st).2.effectStack = st.effectStack ∧
    (getterOp s st).2.runs = st.runs ∧
    (getterOp s st).2.log = st.log ∧
    (∀ e2, ((getterOp s st).2.effects.get? e2).map effView
      = (st.effects.get? e2).map effView) := by
  unfold getterOp
  cases hc : st.currentEffect with
  | none => simp [hc]
  | some e =>
    dsimp only
    cases h2 : st.effects.get? e with
    | none => simp [h2]
    | some ec =>
      refine ⟨rfl, rfl, rfl, rfl, fun e2 => ?_⟩
      by_cases he : e2 = e
      · subst he
        rw [List.get?_eq_getElem?] at h2
        simp [List.getElem?_set_self', h2, effView]
      · simp [List.getElem?_set_ne (fun h => he h.symm)]

theorem disposeOp_frame (e : Nat) (st : St) :
    (disposeOp e st).currentEffect = st.currentEffect ∧
    (disposeOp e st).effectStack = st.effectStack ∧
    (disposeOp e st).runs = st.runs ∧
    (disposeOp e st).log = st.log := by
  unfold disposeOp
  cases st.effects.get? e <;> simp

theorem TrackInv_of_frame {st st' : St} (h1 : st'.effectStack = st.effectStack)
    (h2 : st'.currentEffect = st.currentEffect) (h : TrackInv st) : TrackInv st' := by
  unfold TrackInv at *
  rw [h1, h2, h]

theorem Quiet_refl (st : St) : Quiet st st := ⟨rfl, rfl, rfl, fun _ => rfl⟩

theorem Quiet_trans {st1 st2 st3 : St} (h1 : Quiet st1 st2) (h2 : Quiet st2 st3) :
    Quiet st1 st3 :=
  ⟨h2.1.trans h1.1, h2.2.1.trans h1.2.1, h2.2.2.1.trans h1.2.2.1,
    fun e2 => (h2.2.2.2 e2).trans (h1.2.2.2 e2)⟩

theorem getterOp_quiet (s : Nat) (st : St) : Quiet st (getterOp s st).2 := by
  obtain ⟨g1, g2, g3, _, g5⟩ := getterOp_frame s st
  exact ⟨g3, g2, g1, g5⟩

theorem effView_transport {st st' : St}
    (hpres : ∀ e2, (st'.effects.get? e2).map effView = (st.effects.get? e2).map effView)
    {e : Nat} {ec : EffectCell} (hget : st.effects.get? e = some ec) :
    ∃ ec', st'.effects.get? e = some ec' ∧ ec'.body = ec.body ∧
      ec'.isDisposed = ec.isDisposed := by
  have hp := hpres e
  rw [hget] at hp
  cases hg : st'.effects.get? e with
  | none => rw [hg] at hp; simp at hp
  | some ec' =>
    rw [hg] at hp
    simp only [Option.map, Option.some.injEq, effView, Prod.mk.injEq] at hp
    exact ⟨ec', rfl, hp.1, hp.2⟩

theorem runB_RO : ∀ (n : Nat) (b : Body), ROB n b → ∀ (f : Nat) (st : St), n < f →
    ∃ st', exec f (.runB b) st = some (st', false) ∧ Quiet st st' := by
  intro n b hb
  induction hb with
  | done n =>
    intro f st hf
    obtain ⟨f', rfl⟩ : ∃ f', f = f' + 1 := ⟨f - 1, by omega⟩
    exact ⟨st, rfl, Quiet_refl st⟩
  | read n s k hk ih =>
    intro f st hf
    obtain ⟨f', rfl⟩ : ∃ f', f = f' + 1 := ⟨f - 1, by omega⟩
    obtain ⟨st', hex, hq⟩ := ih (getterOp s st).1 f' (getterOp s st).2 (by omega)
    exact ⟨st', hex, Quiet_trans (getterOp_quiet s st) hq⟩
  | record n v k hk ih =>
    intro f st hf
    obtain ⟨f', rfl⟩ : ∃ f', f = f' + 1 := ⟨f - 1, by omega⟩
    obtain ⟨st', hex, hq⟩ := ih f' { st with log := st.log ++ [v] } (by omega)
    exact ⟨st', hex, Quiet_trans ⟨rfl, rfl, rfl, fun _ => rfl⟩ hq⟩

theorem runE_RO : ∀ (f e n : Nat) (st : St) (ec : EffectCell),
    st.effects.get? e = some ec → ec.isDisposed = false → ROB n ec.body →
    TrackInv st → n + 2 ≤ f →
    ∃ st', exec f (.runE e) st = some (st', false) ∧
      st'.runs = st.runs ++ [e] ∧ st'.effectStack = st.effectStack ∧
      st'.currentEffect = st.currentEffect ∧
      ∀ e2, (st'.effects.get? e2).map effView = (st.effects.get? e2).map effView := by
  intro f e n st ec hget hdisp hb hinv hf
  obtain ⟨f', rfl⟩ : ∃ f', f = f' + 1 := ⟨f - 1, by omega⟩
  obtain ⟨st2, hex, hq⟩ := runB_RO n ec.body hb f'
    { st with currentEffect := some e, effectStack := e :: st.effectStack,
              runs := st.runs ++ [e] } (by omega)
  obtain ⟨q1, q2, q3, q4⟩ := hq
  refine ⟨{ st2 with effectStack := st2.effectStack.tail,
                     currentEffect := st2.effectStack.tail.head? }, ?_, ?_, ?_, ?_, ?_⟩
  · simp only [exec, hget, hdisp, Bool.false_eq_true, if_false]
    rw [hex]
  · exact q1
  · show st2.effectStack.tail = st.effectStack
    rw [q2]
    rfl
  · show st2.effectStack.tail.head? = st.currentEffect
    rw [q2]
    exact hinv.symm
  · exact q4

theorem replay_RO : ∀ (subs : List Nat) (f s n : Nat) (st : St),
    (∀ e ∈ subs, ∃ ec, st.effects.get? e = some ec ∧ ec.isDisposed = false ∧
      ROB n ec.body) →
    TrackInv st → subs.length + n + 2 ≤ f →
    ∃ st', exec f (.replay subs s) st = some (st', false) ∧
      st'.runs = st.runs ++ subs ∧ st'.effectStack = st.effectStack ∧
      st'.currentEffect = st.currentEffect ∧
      ∀ e2, (st'.effects.get? e2).map effView = (st.effects.get? e2).map effView := by
  intro subs
  induction subs with
  | nil =>
    intro f s n st hsubs hinv hf
    obtain ⟨f', rfl⟩ : ∃ f', f = f' + 1 := ⟨f - 1, by omega⟩
    exact ⟨st, rfl, (List.append_nil _).symm, rfl, rfl, fun _ => rfl⟩
  | cons e rest ih =>
    intro f s n st hsubs hinv hf
    obtain ⟨f', rfl⟩ : ∃ f', f = f' + 1 := ⟨f - 1, by omega⟩
    obtain ⟨ec, hget, hdisp, hrob⟩ := hsubs e (by simp)
    obtain ⟨st2, hex2, hr2, hs2, hc2, hv2⟩ := runE_RO f' e n
      ({ st with signals := st.signals.set s ({ st.signals.getD s defaultSignal with subscribers := addUnique (st.signals.getD s defaultSignal).subscribers e }) })
      ec hget hdisp hrob hinv (by simp at hf; omega)
    have hinv2 : TrackInv st2 := TrackInv_of_frame hs2 hc2 hinv
    obtain ⟨st3, hex3, hr3, hs3, hc3, hv3⟩ := ih f' s n st2
      (by
        intro e2 he2
        obtain ⟨ec2, hget2, hdisp2, hrob2⟩ := hsubs e2 (by simp [he2])
        obtain ⟨ec2', hget2', hb2', hd2'⟩ := effView_transport hv2 hget2
        exact ⟨ec2', hget2', by rw [hd2', hdisp2], by rw [hb2']; exact hrob2⟩)
      hinv2 (by simp at hf ⊢; omega)
    refine ⟨st3, ?_, ?_, ?_, ?_, ?_⟩
    · simp only [exec]
      rw [hex2]
      exact hex3
    · rw [hr3, hr2]
      simp
    · rw [hs3, hs2]
    · rw [hc3, hc2]
    · intro e2
      exact (hv3 e2).trans (hv2 e2)

theorem exec_mono : ∀ (f : Nat) (t : Task) (st : St) (r : St × Bool),
    exec f t st = some r → exec (f + 1) t st = some r := by
  intro f
  induction f with
  | zero => intro t st r h; simp [exec] at h
  | succ f ih =>
    intro t st r h
    cases t with
    | runB b =>
      cases b with
      | done => exact h
      | throwB => exact h
      | read s k =>
        simp only [exec] at h ⊢
        exact ih _ _ _ h
      | write s v k =>
        simp only [exec] at h ⊢
        split at h
        · exact absurd h (by simp)
        · rename_i st1 heq
          have h2 := ih _ _ _ heq
          simp only [exec] at h2
          rw [h2]
          exact h
        · rename_i st1 heq
          have h2 := ih _ _ _ heq
          simp only [exec] at h2
          rw [h2]
          exact ih _ _ _ h
      | record v k =>
        simp only [exec] at h ⊢
        exact ih _ _ _ h
      | newEffect b k =>
        simp only [exec] at h ⊢
        split at h
        · exact absurd h (by simp)
        · rename_i st1 heq
          have h2 := ih _ _ _ heq
          simp only [exec] at h2
          rw [h2]
          exact h
        · rename_i st1 heq
          have h2 := ih _ _ _ heq
          simp only [exec] at h2
          rw [h2]
          exact ih _ _ _ h
      | disposeB e k =>
        simp only [exec] at h ⊢
        exact ih _ _ _ h
    | setS s v =>
      simp only [exec] at h ⊢
      by_cases hc : jsObjectIs (st.signals.getD s defaultSignal).value v = true
      · rw [if_pos hc] at h ⊢
        exact h
      · rw [if_neg hc] at h ⊢
        exact ih _ _ _ h
    | replay subs s =>
      cases subs with
      | nil => exact h
      | cons e rest =>
        simp only [exec] at h ⊢
        split at h
        · exact absurd h (by simp)
        · rename_i st2 heq
          have h2 := ih _ _ _ heq
          simp only [exec] at h2
          rw [h2]
          exact h
        · rename_i st2 heq
          have h2 := ih _ _ _ heq
          simp only [exec] at h2
          rw [h2]
          exact ih _ _ _ h
    | runE e =>
      simp only [exec] at h ⊢
      cases hge : st.effects.get? e with
      | none =>
        simp only [hge] at h ⊢
        exact h
      | some ec =>
        simp only [hge] at h ⊢
        by_cases hd : ec.isDisposed = true
        · rw [if_pos hd] at h ⊢
          exact h
        · rw [if_neg hd] at h ⊢
          split at h
          · exact absurd h (by simp)
          · rename_i st2 t heq
            rw [ih _ _ _ heq]
            exact h

theorem exec_mono_le {f g : Nat} {t : Task} {st : St} {r : St × Bool}
    (hle : f ≤ g) (h : exec f t st = some r) : exec g t st = some r := by
  induction hle with
  | refl => exact h
  | step _ ih => exact exec_mono _ _ _ _ ih

end Hamsterx

namespace Hamsterx

/-- C1 (counterexample): in the divergent-branch scenario the claim fails.
After the initial run with the flag true and the flag-flipping write (two runs
of effect 0 so far), the claim asserts that a value-changing write to A does
not rerun the effect; in fact the run log does change — the effect is rerun,
because the code never removes a stale subscription. -/
theorem c1_counterexample :
    ¬ (c1Final.map (fun st => st.runs) = c1AfterFlip.map (fun st => st.runs)) := by
  decide

/-- C1 (amended): subscriptions accumulate across runs instead of being
refreshed.  After the flip, the effect is still the sole subscriber of A (and
of the flag and B), its run log is `[0, 0]`, and the value-changing write to A
reruns it exactly once more (run log `[0, 0, 0]`). -/
theorem c1_amended :
    c1AfterFlip.map (fun st => (st.signals.getD 1 defaultSignal).subscribers) = some [0] ∧
    c1AfterFlip.map (fun st => st.runs) = some [0, 0] ∧
    c1Final.map (fun st => st.runs) = some [0, 0, 0] := by
  decide

/-- C2 (code bug, evaluated at the failing input): after the top-level call of
effect 0's disposer, the effect is marked disposed and its cleanup set is
cleared, yet signal 0's subscriber set still contains it — the unsubscribe
closure deleted `currentEffect` (null at cleanup time) instead of the
subscribing effect, violating invariant I1. -/
theorem c2_bug_eval :
    c2AfterDispose.map (fun st => (st.effects.getD 0 ⟨.done, false, []⟩).isDisposed)
      = some true ∧
    c2AfterDispose.map (fun st => (st.effects.getD 0 ⟨.done, false, []⟩).cleanup)
      = some [] ∧
    c2AfterDispose.map (fun st => (st.signals.getD 0 defaultSignal).subscribers)
      = some [0] := by
  decide

/-- C3 (counterexample): writing NaN to a signal whose stored value is NaN IS
a no-op, contrary to the claim.  The recording subscriber is not rerun (run
log stays `[0]`, one recorded value), refuting the claim's prediction of a
second run. -/
theorem c3_counterexample :
    c3Final.map (fun st => st.runs) = some [0] ∧
    c3Final.map (fun st => st.log.length) = some 1 ∧
    ¬ (c3Final.map (fun st => st.runs.length) = some 2) := by
  decide

/-- C5 (counterexample): `createEffect` does not execute every body exactly
once before returning.  For a body that reads signal 0 and writes back the
capped increment (ceiling 1), the body executes twice before the constructor
returns (run log length 2, not 1): its own write retriggers it synchronously. -/
theorem c5_counterexample :
    ¬ ((createEffect 20 c5xBody c5xSetup).map (fun p => p.1.runs.length) = some 1) := by
  decide

/-- C7: basic propagation.  Signal starts at 0 with a recording effect;
write(1) and write(2) each rerun the effect once, the repeated write(2) is a
no-op.  The recorded sequence is exactly `[0, 1, 2]` and the effect ran
exactly three times. -/
theorem c7_basic_propagation :
    c7Run.map (fun st => st.log) = some [.num 0, .num 1, .num 2] ∧
    c7Run.map (fun st => st.runs) = some [0, 0, 0] := by
  decide

end Hamsterx

namespace Hamsterx

/-- C6: the tracking context never leaks.  Whenever `currentObserver` is the
top of the observer stack (the invariant of the tracking context at rest and
at every effect-nesting level), any completed interpreter step — an effect
run, a write with its whole replay cascade, or a body fragment — leaves the
observer stack and `currentObserver` exactly as it found them, whether it
completed normally or by a propagating exception (`th` covers both).  Inside
`exec`'s effect-runner case the body runs with the effect pushed (stack depth
= nesting depth), and the guaranteed-run finalizer pops the stack and
restores `currentObserver` to the new top or null. -/
theorem c6_tracking_restored : ∀ (f : Nat) (t : Task) (st st' : St) (th : Bool),
    exec f t st = some (st', th) → TrackInv st →
    st'.effectStack = st.effectStack ∧ st'.currentEffect = st.currentEffect := by
  intro f
  induction f with
  | zero => intro t st st' th h _; simp [exec] at h
  | succ f ih =>
    intro t st st' th h hinv
    cases t with
    | runB b =>
      cases b with
      | done =>
        simp only [exec, Option.some.injEq, Prod.mk.injEq] at h
        obtain ⟨h1, -⟩ := h
        subst h1; exact ⟨rfl, rfl⟩
      | throwB =>
        simp only [exec, Option.some.injEq, Prod.mk.injEq] at h
        obtain ⟨h1, -⟩ := h
        subst h1; exact ⟨rfl, rfl⟩
      | read s k =>
        simp only [exec] at h
        obtain ⟨g1, g2, -, -, -⟩ := getterOp_frame s st
        obtain ⟨r1, r2⟩ := ih _ _ _ _ h (TrackInv_of_frame g2 g1 hinv)
        exact ⟨r1.trans g2, r2.trans g1⟩
      | write s v k =>
        simp only [exec] at h
        split at h
        · exact absurd h (by simp)
        · rename_i st1 heq
          simp only [Option.some.injEq, Prod.mk.injEq] at h
          obtain ⟨h1, -⟩ := h
          subst h1
          have r := ih _ _ _ _ heq
          exact r hinv
        · rename_i st1 heq
          obtain ⟨r1, r2⟩ := ih _ _ _ _ heq hinv
          obtain ⟨q1, q2⟩ := ih _ _ _ _ h (TrackInv_of_frame r1 r2 hinv)
          exact ⟨q1.trans r1, q2.trans r2⟩
      | record v k =>
        simp only [exec] at h
        have r := ih _ _ _ _ h
        exact r hinv
      | newEffect b k =>
        simp only [exec] at h
        split at h
        · exact absurd h (by simp)
        · rename_i st1 heq
          simp only [Option.some.injEq, Prod.mk.injEq] at h
          obtain ⟨h1, -⟩ := h
          subst h1
          have r := ih _ _ _ _ heq
          exact r hinv
        · rename_i st1 heq
          obtain ⟨r1, r2⟩ := ih _ _ _ _ heq hinv
          obtain ⟨q1, q2⟩ := ih _ _ _ _ h (TrackInv_of_frame r1 r2 hinv)
          exact ⟨q1.trans r1, q2.trans r2⟩
      | disposeB e k =>
        simp only [exec] at h
        obtain ⟨d1, d2, -, -⟩ := disposeOp_frame e st
        obtain ⟨r1, r2⟩ := ih _ _ _ _ h (TrackInv_of_frame d2 d1 hinv)
        exact ⟨r1.trans d2, r2.trans d1⟩
    | setS s v =>
      simp only [exec] at h
      split at h
      · simp only [Option.some.injEq, Prod.mk.injEq] at h
        obtain ⟨h1, -⟩ := h
        subst h1; exact ⟨rfl, rfl⟩
      · have r := ih _ _ _ _ h
        exact r hinv
    | replay subs s =>
      cases subs with
      | nil =>
        simp only [exec, Option.some.injEq, Prod.mk.injEq] at h
        obtain ⟨h1, -⟩ := h
        subst h1; exact ⟨rfl, rfl⟩
      | cons e rest =>
        simp only [exec] at h
        split at h
        · exact absurd h (by simp)
        · rename_i st2 heq
          simp only [Option.some.injEq, Prod.mk.injEq] at h
          obtain ⟨h1, -⟩ := h
          subst h1
          have r := ih _ _ _ _ heq
          exact r hinv
        · rename_i st2 heq
          obtain ⟨r1, r2⟩ := ih _ _ _ _ heq hinv
          obtain ⟨q1, q2⟩ := ih _ _ _ _ h (TrackInv_of_frame r1 r2 hinv)
          exact ⟨q1.trans r1, q2.trans r2⟩
    | runE e =>
      simp only [exec] at h
      split at h
      · simp only [Option.some.injEq, Prod.mk.injEq] at h
        obtain ⟨h1, -⟩ := h
        subst h1; exact ⟨rfl, rfl⟩
      · rename_i ec hge
        split at h
        · simp only [Option.some.injEq, Prod.mk.injEq] at h
          obtain ⟨h1, -⟩ := h
          subst h1; exact ⟨rfl, rfl⟩
        · split at h
          · exact absurd h (by simp)
          · rename_i st2 t heq
            obtain ⟨r1, r2⟩ := ih _ _ _ _ heq rfl
            simp only [Option.some.injEq, Prod.mk.injEq] at h
            obtain ⟨h1, -⟩ := h
            subst h1
            simp only at r1
            constructor
            · show st2.effectStack.tail = st.effectStack
              rw [r1]
              rfl
            · show st2.effectStack.tail.head? = st.currentEffect
              rw [r1]
              exact hinv.symm


/-- C6 witness: running the trivial effect 0 of `c6wSt` (fuel 2) yields
`c6wOut` without throwing; the theorem applied at this input shows the
observer stack and current observer are restored. -/
theorem c6_witness :
    c6wOut.effectStack = c6wSt.effectStack ∧ c6wOut.currentEffect = c6wSt.currentEffect :=
  c6_tracking_restored 2 (.runE 0) c6wSt c6wOut false rfl rfl

end Hamsterx

namespace Hamsterx

theorem runE_disposed {f e : Nat} {st : St} {ec : EffectCell}
    (hget : st.effects.get? e = some ec) (hd : ec.isDisposed = true) :
    exec (f + 1) (.runE e) st = some (st, false) := by
  have hget2 : st.effects[e]? = some ec := by
    rw [← List.get?_eq_getElem?]
    exact hget
  simp [exec, hget2, hd]

theorem replay_disposed : ∀ (f : Nat) (subs : List Nat) (s : Nat) (st st' : St) (th : Bool),
    exec f (.replay subs s) st = some (st', th) →
    (∀ e ∈ subs, ∃ ec, st.effects.get? e = some ec ∧ ec.isDisposed = true) →
    st'.runs = st.runs ∧ st'.log = st.log ∧ th = false := by
  intro f
  induction f with
  | zero => intro subs s st st' th h _; simp [exec] at h
  | succ f ih =>
    intro subs s st st' th h hsubs
    cases subs with
    | nil =>
      simp only [exec, Option.some.injEq, Prod.mk.injEq] at h
      obtain ⟨h1, h2⟩ := h
      subst h1
      exact ⟨rfl, rfl, h2.symm⟩
    | cons e rest =>
      obtain ⟨ec, hget, hd⟩ := hsubs e (by simp)
      simp only [exec] at h
      cases f with
      | zero => simp [exec] at h
      | succ f1 =>
        have hget1 : ({ st with signals := st.signals.set s ({ st.signals.getD s defaultSignal with subscribers := addUnique (st.signals.getD s defaultSignal).subscribers e }) } : St).effects.get? e = some ec := hget
        rw [runE_disposed hget1 hd] at h
        dsimp only at h
        have hres := ih rest s _ st' th h (fun e2 he2 => hsubs e2 (by simp [he2]))
        exact hres

/-- C4: a disposed effect never executes its body again.  First conjunct: at
any state, invoking the rerun callback of an effect whose disposed flag is set
returns immediately — same state, no exception (the stale-execution guard is a
silent no-op).  Second conjunct: a write to a signal all of whose subscribers
are disposed completes without running any body (run log and record log are
unchanged and nothing is thrown), whatever fuel made it complete. -/
theorem c4_disposed_silent :
    (∀ (f : Nat) (st : St) (e : Nat) (ec : EffectCell),
        st.effects.get? e = some ec → ec.isDisposed = true →
        exec (f + 1) (.runE e) st = some (st, false)) ∧
    (∀ (f s : Nat) (v : JSVal) (st st' : St) (th : Bool),
        (∀ e ∈ (st.signals.getD s defaultSignal).subscribers,
          ∃ ec, st.effects.get? e = some ec ∧ ec.isDisposed = true) →
        exec f (.setS s v) st = some (st', th) →
        st'.runs = st.runs ∧ st'.log = st.log ∧ th = false) := by
  constructor
  · intro f st e ec hget hd
    exact runE_disposed hget hd
  · intro f s v st st' th hsubs h
    cases f with
    | zero => simp [exec] at h
    | succ f1 =>
      simp only [exec] at h
      split at h
      · simp only [Option.some.injEq, Prod.mk.injEq] at h
        obtain ⟨h1, h2⟩ := h
        subst h1
        exact ⟨rfl, rfl, h2.symm⟩
      · have hres := replay_disposed f1 _ s _ st' th h
        exact hres hsubs

/-- C4 witness: at `c4wSt` (signal 0 still listing the disposed effect 0 as a
subscriber), invoking the rerun callback returns the state unchanged, and the
value-changing write of 1 to signal 0 leaves the run log and record log
empty. -/
theorem c4_witness :
    exec 5 (.runE 0) c4wSt = some (c4wSt, false) ∧
    (c4wStAfter.runs = c4wSt.runs ∧ c4wStAfter.log = c4wSt.log ∧ false = false) :=
  ⟨c4_disposed_silent.1 4 c4wSt 0 ⟨.done, true, []⟩ rfl rfl,
   c4_disposed_silent.2 3 0 (.num 1) c4wSt c4wStAfter false
     (by intro e he; simp [c4wSt] at he; subst he; exact ⟨⟨.done, true, []⟩, rfl, rfl⟩)
     rfl⟩

end Hamsterx

namespace Hamsterx

/-- C3 (amended): the write guard of the setter is `Object.is` (SameValue),
not strict `===` equality.  First conjunct: whenever the stored value is
`Object.is`-equal to the new value the write is a complete no-op (identical
state, no subscriber run, nothing thrown).  NaN-to-NaN falls in this case,
because `Object.is` equates NaN with itself although `NaN === NaN` is false
(second and third conjuncts).  Otherwise the setter stores the value,
snapshots the subscribers, clears the live set and replays the snapshot
(fourth conjunct). -/
theorem c3_noop_guard :
    (∀ (f s : Nat) (v : JSVal) (st : St),
        jsObjectIs (st.signals.getD s defaultSignal).value v = true →
        exec (f + 1) (.setS s v) st = some (st, false)) ∧
    jsObjectIs .nan .nan = true ∧
    jsStrictEq .nan .nan = false ∧
    (∀ (f s : Nat) (v : JSVal) (st : St),
        jsObjectIs (st.signals.getD s defaultSignal).value v = false →
        exec (f + 1) (.setS s v) st =
          exec f (.replay (st.signals.getD s defaultSignal).subscribers s)
            ({ st with signals := st.signals.set s ⟨v, []⟩ })) := by
  refine ⟨?_, rfl, rfl, ?_⟩
  · intro f s v st hv
    simp only [exec]
    rw [if_pos hv]
  · intro f s v st hv
    simp only [exec]
    rw [if_neg (fun hc => Bool.false_ne_true (hv.symm.trans hc))]

/-- C3 witness: writing NaN at `c3wSt` (stored NaN) is the identity no-op; a
value-changing write (2 over 1) at `c3wSt2` proceeds to store and replay. -/
theorem c3_witness :
    exec 3 (.setS 0 .nan) c3wSt = some (c3wSt, false) ∧
    exec 3 (.setS 0 (.num 2)) c3wSt2 =
      exec 2 (.replay [] 0) ({ c3wSt2 with signals := c3wSt2.signals.set 0 ⟨.num 2, []⟩ }) :=
  ⟨c3_noop_guard.1 2 0 .nan c3wSt rfl, c3_noop_guard.2.2.2 2 0 (.num 2) c3wSt2 rfl⟩

end Hamsterx

namespace Hamsterx

theorem getD_set_self {α : Type} (l : List α) (i : Nat) (a d : α) :
    (l.set i a).getD i d = if i < l.length then a else d := by
  by_cases h : i < l.length
  · rw [if_pos h, List.getD_eq_getD_get?, List.get?_eq_getElem?, List.getElem?_set_self',
      List.getElem?_eq_getElem h]
    rfl
  · rw [if_neg h]
    apply List.getD_eq_default
    simp only [List.length_set]
    omega

/-- C10: frame of the read accessor.  The getter never changes the stored
value and returns it (first conjunct).  With no current observer a read
modifies no state at all (second conjunct).  With a current observer `e` its
only side effects are inserting `e` into the signal's subscriber set
(idempotent, insertion-ordered) and appending one fresh unsubscribe closure —
recorded by the signal index it captures — to `e`'s cleanup set, one per read
(third conjunct). -/
theorem c10_getter_frame :
    (∀ (s : Nat) (st : St),
        (getterOp s st).1 = (st.signals.getD s defaultSignal).value ∧
        ((getterOp s st).2.signals.getD s defaultSignal).value
          = (st.signals.getD s defaultSignal).value) ∧
    (∀ (s : Nat) (st : St), st.currentEffect = none →
        getterOp s st = ((st.signals.getD s defaultSignal).value, st)) ∧
    (∀ (s : Nat) (st : St) (e : Nat) (ec : EffectCell),
        st.currentEffect = some e → st.effects.get? e = some ec →
        getterOp s st =
          ((st.signals.getD s defaultSignal).value,
            { st with
                signals := st.signals.set s ({ st.signals.getD s defaultSignal with subscribers := addUnique (st.signals.getD s defaultSignal).subscribers e }),
                effects := st.effects.set e ({ ec with cleanup := ec.cleanup ++ [s] }) })) := by
  refine ⟨?_, ?_, ?_⟩
  · intro s st
    unfold getterOp
    cases hc : st.currentEffect with
    | none => exact ⟨rfl, rfl⟩
    | some e =>
      dsimp only
      have hval : ∀ (sub2 : List Nat),
          ((st.signals.set s ({ st.signals.getD s defaultSignal with subscribers := sub2 })).getD s defaultSignal).value
            = (st.signals.getD s defaultSignal).value := by
        intro sub2
        rw [getD_set_self]
        by_cases h : s < st.signals.length
        · rw [if_pos h]
        · rw [if_neg h, List.getD_eq_default _ _ (by omega)]
      cases hg : st.effects.get? e with
      | none => exact ⟨rfl, hval _⟩
      | some ec => exact ⟨rfl, hval _⟩
  · intro s st h
    unfold getterOp
    rw [h]
  · intro s st e ec hc hget
    unfold getterOp
    rw [hc]
    dsimp only
    rw [hget]

/-- C10 witness: reading signal 0 at `c10wSt` (effect 0 is the current
observer) returns the stored 7 and performs exactly the two bookkeeping
updates: effect 0 joins the subscriber set and one unsubscribe closure for
signal 0 joins its cleanup set. -/
theorem c10_witness :
    getterOp 0 c10wSt =
      ((.num 7 : JSVal),
        { c10wSt with
            signals := c10wSt.signals.set 0 ⟨.num 7, [0]⟩,
            effects := c10wSt.effects.set 0 ⟨.done, false, [0]⟩ }) ∧
    getterOp 0 st0 = ((defaultSignal).value, st0) :=
  ⟨c10_getter_frame.2.2 0 c10wSt 0 ⟨.done, false, []⟩ rfl rfl,
   c10_getter_frame.2.1 0 st0 rfl⟩

end Hamsterx

namespace Hamsterx

theorem disposeOp_marks {st : St} {e : Nat} {ec : EffectCell}
    (h : st.effects.get? e = some ec) :
    ((disposeOp e st).effects.get? e).map EffectCell.isDisposed = some true := by
  unfold disposeOp
  rw [h]
  dsimp only
  rw [List.get?_eq_getElem?] at h ⊢
  rw [List.getElem?_set_self', h]
  rfl

/-- C8: subscriber callbacks of a value-changing write run sequentially in
subscription (insertion) order.  If every snapshotted subscriber is a live
effect with a read-only body, the write completes without throwing and the
ghost run log is extended by exactly the subscriber list as snapshotted at the
write — first-subscribed first. -/
theorem c8_insertion_order :
    ∀ (f s n : Nat) (v : JSVal) (st : St),
    jsObjectIs (st.signals.getD s defaultSignal).value v = false →
    (∀ e ∈ (st.signals.getD s defaultSignal).subscribers,
      ∃ ec, st.effects.get? e = some ec ∧ ec.isDisposed = false ∧ ROB n ec.body) →
    TrackInv st →
    (st.signals.getD s defaultSignal).subscribers.length + n + 3 ≤ f →
    ∃ st', writeSig f s v st = some (st', false) ∧
      st'.runs = st.runs ++ (st.signals.getD s defaultSignal).subscribers := by
  intro f s n v st hv hsubs hinv hf
  obtain ⟨f', rfl⟩ : ∃ f', f = f' + 1 := ⟨f - 1, by omega⟩
  obtain ⟨st', hex, hr, -, -, -⟩ :=
    replay_RO (st.signals.getD s defaultSignal).subscribers f' s n
      ({ st with signals := st.signals.set s ⟨v, []⟩ }) hsubs hinv (by omega)
  refine ⟨st', ?_, hr⟩
  unfold writeSig
  simp only [exec]
  rw [if_neg (fun hc => Bool.false_ne_true (hv.symm.trans hc))]
  exact hex

/-- C8 witness: at `c8wSt` (two live read-only subscribers, subscribed in the
order 0 then 1), the value-changing write of 1 runs them in exactly that
order. -/
theorem c8_witness :
    ∃ st', writeSig 10 0 (.num 1) c8wSt = some (st', false) ∧
      st'.runs = c8wSt.runs ++ [0, 1] :=
  c8_insertion_order 10 0 1 (.num 1) c8wSt rfl
    (by
      intro e he
      have he2 : e = 0 ∨ e = 1 := by simpa [c8wSt] using he
      rcases he2 with rfl | rfl
      · exact ⟨⟨.read 0 (fun _ => .done), false, []⟩, rfl, rfl,
          ROB.read 0 0 _ (fun v => ROB.done 0)⟩
      · exact ⟨⟨.read 0 (fun _ => .done), false, []⟩, rfl, rfl,
          ROB.read 0 0 _ (fun v => ROB.done 0)⟩)
    rfl (by decide)

/-- C5 (amended): `createEffect(body)` runs the body synchronously before
returning and returns a working dispose handle; the body executes exactly
once during construction whenever it performs no signal writes (for a body
whose own writes retrigger it, additional synchronous executions can happen
before the constructor returns — see the counterexample).  For any read-only
body: exactly one new entry in the ghost run log, the tracking context is
untouched, and disposing the returned handle marks the effect disposed. -/
theorem c5_construction :
    ∀ (n : Nat) (b : Body), ROB n b → ∀ (f : Nat) (st : St),
    n + 2 ≤ f → TrackInv st →
    ∃ st', createEffect f b st = some (st', false) ∧
      st'.runs = st.runs ++ [newEffectId st] ∧
      st'.effectStack = st.effectStack ∧ st'.currentEffect = st.currentEffect ∧
      ((disposeOp (newEffectId st) st').effects.get? (newEffectId st)).map
        EffectCell.isDisposed = some true := by
  intro n b hb f st hf hinv
  have hget : ({ st with effects := st.effects ++ [EffectCell.mk b false []] } : St).effects.get?
      st.effects.length = some (EffectCell.mk b false []) := by
    show (st.effects ++ [EffectCell.mk b false []]).get? st.effects.length
      = some (EffectCell.mk b false [])
    rw [List.get?_eq_getElem?]
    exact List.getElem?_concat_length _ _
  obtain ⟨st', hex, hr, hs, hc, hv⟩ :=
    runE_RO f st.effects.length n ({ st with effects := st.effects ++ [EffectCell.mk b false []] })
      (EffectCell.mk b false []) hget rfl hb hinv hf
  obtain ⟨ec', hget', -, -⟩ := effView_transport hv hget
  exact ⟨st', hex, hr, hs, hc, disposeOp_marks hget'⟩

/-- C5 witness: constructing the depth-1 read-only body on `c5xSetup` with
fuel 3 runs it exactly once and yields a dispose handle that works. -/
theorem c5_witness :
    ∃ st', createEffect 3 roBody1 c5xSetup = some (st', false) ∧
      st'.runs = c5xSetup.runs ++ [newEffectId c5xSetup] ∧
      st'.effectStack = c5xSetup.effectStack ∧
      st'.currentEffect = c5xSetup.currentEffect ∧
      ((disposeOp (newEffectId c5xSetup) st').effects.get? (newEffectId c5xSetup)).map
        EffectCell.isDisposed = some true :=
  c5_construction 1 roBody1 (ROB.read 0 0 _ (fun v => ROB.done 0)) 3 c5xSetup
    (by omega) rfl

end Hamsterx

namespace Hamsterx

theorem exec_write_eq (f : Nat) (s : Nat) (v : JSVal) (k : Body) (st : St) :
    exec (f + 1) (.runB (.write s v k)) st =
      match exec f (.setS s v) st with
      | none => none
      | some (st1, true) => some (st1, true)
      | some (st1, false) => exec f (.runB k) st1 := rfl

theorem exec_read_eq (f : Nat) (s : Nat) (k : JSVal → Body) (st : St) :
    exec (f + 1) (.runB (.read s k)) st =
      exec f (.runB (k (getterOp s st).1)) (getterOp s st).2 := rfl

theorem exec_done_eq (f : Nat) (st : St) :
    exec (f + 1) (.runB .done) st = some (st, false) := rfl

theorem exec_setS_eq (f : Nat) (s : Nat) (v : JSVal) (st : St) :
    exec (f + 1) (.setS s v) st =
      if jsObjectIs (st.signals.getD s defaultSignal).value v = true then some (st, false)
      else
        exec f (.replay (st.signals.getD s defaultSignal).subscribers s)
          { st with signals := st.signals.set s ({ st.signals.getD s defaultSignal with value := v, subscribers := [] }) } := rfl

theorem exec_replay_cons_eq (f : Nat) (e : Nat) (rest : List Nat) (s : Nat) (st : St) :
    exec (f + 1) (.replay (e :: rest) s) st =
      match exec f (.runE e)
          { st with signals := st.signals.set s ({ st.signals.getD s defaultSignal with subscribers := addUnique (st.signals.getD s defaultSignal).subscribers e }) } with
      | none => none
      | some (st2, true) => some (st2, true)
      | some (st2, false) => exec f (.replay rest s) st2 := rfl

theorem exec_replay_nil_eq (f : Nat) (s : Nat) (st : St) :
    exec (f + 1) (.replay [] s) st = some (st, false) := rfl

theorem exec_runE_eq (f : Nat) (e : Nat) (st : St) :
    exec (f + 1) (.runE e) st =
      match st.effects.get? e with
      | none => some (st, false)
      | some ec =>
        if ec.isDisposed then some (st, false)
        else
          match exec f (.runB ec.body)
              { st with currentEffect := some e, effectStack := e :: st.effectStack,
                        runs := st.runs ++ [e] } with
          | none => none
          | some (st2, t) =>
            some ({ st2 with effectStack := st2.effectStack.tail,
                             currentEffect := st2.effectStack.tail.head? }, t) := rfl

end Hamsterx

namespace Hamsterx

theorem c9_step (c w x : Int) (cl stk : List Nat) (cur : Option Nat) (lg : List JSVal)
    (rs : List Nat) (hwx : w ≠ x) (hcur : cur = stk.head?)
    (fI : Nat) (stI : St)
    (hI : exec fI (.setS 0 (.num (min (x + 1) c)))
      (⟨[⟨.num x, [0]⟩], [⟨c9Body c, false, cl ++ [0]⟩], some 0, 0 :: stk, lg, rs ++ [0]⟩ : St)
      = some (stI, false))
    (hstI : stI.effectStack = 0 :: stk) (_hcI : stI.currentEffect = some 0) :
    ∃ (f : Nat) (st' : St),
      exec f (.setS 0 (.num x)) (c9Shape c w cl stk cur lg rs) = some (st', false) ∧
      st'.effectStack = stk ∧ st'.currentEffect = cur := by
  have hE : exec (fI + 1 + 1) (.runB (.write 0 (.num (min (x + 1) c)) .done))
      (⟨[⟨.num x, [0]⟩], [⟨c9Body c, false, cl ++ [0]⟩], some 0, 0 :: stk, lg, rs ++ [0]⟩ : St)
      = some (stI, false) := by
    rw [exec_write_eq (fI + 1), exec_mono_le (by omega : fI ≤ fI + 1) hI]
    rfl
  have hD : exec (fI + 1 + 1 + 1) (.runB (c9Body c))
      (⟨[⟨.num x, [0]⟩], [⟨c9Body c, false, cl⟩], some 0, 0 :: stk, lg, rs ++ [0]⟩ : St)
      = some (stI, false) := by
    show exec (fI + 1 + 1 + 1) (.runB (.read 0 (fun v => .write 0 (capInc c v) .done)))
      (⟨[⟨.num x, [0]⟩], [⟨c9Body c, false, cl⟩], some 0, 0 :: stk, lg, rs ++ [0]⟩ : St)
      = some (stI, false)
    rw [exec_read_eq (fI + 1 + 1)]
    show exec (fI + 1 + 1) (.runB (.write 0 (.num (min (x + 1) c)) .done))
      (⟨[⟨.num x, [0]⟩], [⟨c9Body c, false, cl ++ [0]⟩], some 0, 0 :: stk, lg, rs ++ [0]⟩ : St)
      = some (stI, false)
    exact hE
  have hC : exec (fI + 1 + 1 + 1 + 1) (.runE 0)
      (⟨[⟨.num x, [0]⟩], [⟨c9Body c, false, cl⟩], cur, stk, lg, rs⟩ : St)
      = some ({ stI with effectStack := stI.effectStack.tail,
                         currentEffect := stI.effectStack.tail.head? }, false) := by
    rw [exec_runE_eq (fI + 1 + 1 + 1)]
    show ((match exec (fI + 1 + 1 + 1) (.runB (c9Body c))
        (⟨[⟨.num x, [0]⟩], [⟨c9Body c, false, cl⟩], some 0, 0 :: stk, lg, rs ++ [0]⟩ : St) with
      | none => none
      | some (st2, t) =>
        some ({ st2 with effectStack := st2.effectStack.tail,
                         currentEffect := st2.effectStack.tail.head? }, t)) : Option (St × Bool))
      = some (({ stI with effectStack := stI.effectStack.tail,
                          currentEffect := stI.effectStack.tail.head? } : St), false)
    rw [hD]
  have hB : exec (fI + 1 + 1 + 1 + 1 + 1) (.replay [0] 0)
      (⟨[⟨.num x, []⟩], [⟨c9Body c, false, cl⟩], cur, stk, lg, rs⟩ : St)
      = some ({ stI with effectStack := stI.effectStack.tail,
                         currentEffect := stI.effectStack.tail.head? }, false) := by
    rw [exec_replay_cons_eq (fI + 1 + 1 + 1 + 1)]
    show ((match exec (fI + 1 + 1 + 1 + 1) (.runE 0)
        (⟨[⟨.num x, [0]⟩], [⟨c9Body c, false, cl⟩], cur, stk, lg, rs⟩ : St) with
      | none => none
      | some (st2, true) => some (st2, true)
      | some (st2, false) => exec (fI + 1 + 1 + 1 + 1) (.replay [] 0) st2) : Option (St × Bool))
      = some (({ stI with effectStack := stI.effectStack.tail,
                          currentEffect := stI.effectStack.tail.head? } : St), false)
    rw [hC]
    rfl
  have hcond : ¬ (jsObjectIs
      (((c9Shape c w cl stk cur lg rs).signals.getD 0 defaultSignal).value) (.num x) = true) := by
    intro hc
    exact hwx (JSVal.num.inj
      (of_decide_eq_true (show decide (JSVal.num w = JSVal.num x) = true from hc)))
  refine ⟨fI + 1 + 1 + 1 + 1 + 1 + 1,
    { stI with effectStack := stI.effectStack.tail,
               currentEffect := stI.effectStack.tail.head? }, ?_, ?_, ?_⟩
  · rw [exec_setS_eq (fI + 1 + 1 + 1 + 1 + 1), if_neg hcond]
    show exec (fI + 1 + 1 + 1 + 1 + 1) (.replay [0] 0)
      (⟨[⟨.num x, []⟩], [⟨c9Body c, false, cl⟩], cur, stk, lg, rs⟩ : St)
      = some ({ stI with effectStack := stI.effectStack.tail,
                         currentEffect := stI.effectStack.tail.head? }, false)
    exact hB
  · rw [hstI]
    rfl
  · rw [hstI]
    exact hcur.symm

end Hamsterx

namespace Hamsterx

theorem c9_noop (c w x : Int) (cl stk : List Nat) (cur : Option Nat) (lg : List JSVal)
    (rs : List Nat) (hwx : w = x) :
    exec 1 (.setS 0 (.num x)) (c9Shape c w cl stk cur lg rs)
      = some (c9Shape c w cl stk cur lg rs, false) := by
  have hcnd : jsObjectIs
      (((c9Shape c w cl stk cur lg rs).signals.getD 0 defaultSignal).value) (.num x) = true := by
    show decide (JSVal.num w = JSVal.num x) = true
    rw [hwx]
    exact decide_eq_true rfl
  show exec (0 + 1) (.setS 0 (.num x)) (c9Shape c w cl stk cur lg rs) = _
  rw [exec_setS_eq 0, if_pos hcnd]

theorem c9_aux : ∀ (d : Nat) (c w x : Int) (cl stk : List Nat) (cur : Option Nat)
    (lg : List JSVal) (rs : List Nat), x ≤ c → (c - x).toNat = d → cur = stk.head? →
    ∃ (f : Nat) (st' : St),
      exec f (.setS 0 (.num x)) (c9Shape c w cl stk cur lg rs) = some (st', false) ∧
      st'.effectStack = stk ∧ st'.currentEffect = cur := by
  intro d
  induction d with
  | zero =>
    intro c w x cl stk cur lg rs hxc hd hcur
    have hx : x = c := by omega
    subst hx
    by_cases hwx : w = x
    · exact ⟨1, c9Shape x w cl stk cur lg rs, c9_noop x w x cl stk cur lg rs hwx, rfl, rfl⟩
    · refine c9_step x w x cl stk cur lg rs hwx hcur 1
        (⟨[⟨.num x, [0]⟩], [⟨c9Body x, false, cl ++ [0]⟩], some 0, 0 :: stk, lg, rs ++ [0]⟩ : St)
        ?_ rfl rfl
      have hmin : min (x + 1) x = x := by omega
      rw [hmin]
      exact c9_noop x x x (cl ++ [0]) (0 :: stk) (some 0) lg (rs ++ [0]) rfl
  | succ d ih =>
    intro c w x cl stk cur lg rs hxc hd hcur
    have hx : x < c := by omega
    by_cases hwx : w = x
    · exact ⟨1, c9Shape c w cl stk cur lg rs, c9_noop c w x cl stk cur lg rs hwx, rfl, rfl⟩
    · have hmin : min (x + 1) c = x + 1 := by omega
      obtain ⟨fI, stI, hI, hstI, hcI⟩ :=
        ih c x (x + 1) (cl ++ [0]) (0 :: stk) (some 0) lg (rs ++ [0]) (by omega) (by omega) rfl
      refine c9_step c w x cl stk cur lg rs hwx hcur fI stI ?_ hstI hcI
      rw [hmin]
      exact hI

/-- C9: the re-entrant capped-increment write terminates.  The effect reads
signal 0 and writes back `min(v + 1, c)`; once the value reaches the ceiling
it writes the identical value and the `Object.is` no-op guard stops the
cascade.  For every ceiling `c`, stored value `a` and triggering write
`b ≤ c` there is a finite fuel on which the write completes (in the fuel
semantics, returning `some` is termination of the synchronous recursion)
without throwing, with the observer stack and the current observer back at
rest. -/
theorem c9_reentrant_write_terminates : ∀ (a b c : Int), b ≤ c →
    ∃ (f : Nat) (st' : St), writeSig f 0 (.num b) (c9St a c) = some (st', false) ∧
      st'.effectStack = [] ∧ st'.currentEffect = none := by
  intro a b c hbc
  obtain ⟨f, st', hex, hs, hc⟩ := c9_aux (c - b).toNat c a b [] [] none [] [] hbc rfl rfl
  exact ⟨f, st', hex, hs, hc⟩

/-- C9 witness: with ceiling 5, initial value 0 and triggering write 1, the
cascading write terminates. -/
theorem c9_witness :
    ∃ (f : Nat) (st' : St), writeSig f 0 (.num 1) (c9St 0 5) = some (st', false) ∧
      st'.effectStack = [] ∧ st'.currentEffect = none :=
  c9_reentrant_write_terminates 0 1 5 (by omega)

end Hamsterx
